import Mathlib

/-!
Shallow embedding of the secaudit document-analysis core (TypeScript) in Lean 4,
together with theorems settling the specification claims.

Conventions of the embedding:
* Document text is represented as `List Char`; JavaScript string lengths are
  `List.length` (the analyzed documents are ASCII, where UTF-16 code-unit
  counts and character counts coincide).
* The JavaScript regular expressions of the locator are each embedded as a
  deterministic prefix matcher `List Char → Bool` (the patterns use only
  literals, character classes with disjoint follow sets, word boundaries and
  one negative lookahead, so possessive matching coincides with backtracking
  semantics).  JavaScript `\s` is modelled by the ASCII whitespace characters.
* The raw HTML document is represented by the list of text contents of its
  `body > div` blocks, which is what the (external) cheerio parser hands to
  `findSectionByDomSiblings`.
* JavaScript numbers that carry fractional values (confidence scores,
  thresholds, sentence scores) are modelled as `ℚ`; integral counters as `Nat`.
* JavaScript plain objects used as string-keyed records are modelled as
  insertion-ordered association lists with overwrite-in-place semantics
  (`recordSet`).
-/

namespace SecAudit

/-! ## Character and list utilities -/

/-- ASCII whitespace, modelling the JavaScript `\s` class on the ASCII range. -/
def isSpaceC (c : Char) : Bool :=
  c == ' ' || c == '\t' || c == '\n' || c == '\r'

/-- The apostrophe character (U+0027). -/
def aposC : Char := Char.ofNat 39

def chars (s : String) : List Char := s.toList

/-- ASCII letter, modelling `[a-z]` under the `i` flag. -/
def isAsciiLetter (c : Char) : Bool :=
  ('a' ≤ c && c ≤ 'z') || ('A' ≤ c && c ≤ 'Z')

/-- Word character for the `\b` boundary: alphanumeric or underscore. -/
def isWordChar (c : Char) : Bool := c.isAlphanum || c == '_'

/-- The class `[\.\s\-—–]` used between an item number and a section title. -/
def isSectPunc (c : Char) : Bool :=
  c == '.' || isSpaceC c || c == '-' || c == '—' || c == '–'

/-- Case-insensitive literal: consume `p` from the front of the input. -/
def litCI : List Char → List Char → Option (List Char)
  | [], cs => some cs
  | _ :: _, [] => none
  | p :: ps, c :: cs => if c.toLower = p.toLower then litCI ps cs else none

/-- One-or-more characters of class `p`, consumed possessively. -/
def cls1 (p : Char → Bool) : List Char → Option (List Char)
  | [] => none
  | c :: cs => if p c then some (cs.dropWhile p) else none

/-- `\s+`, consumed possessively. -/
def sp1 (cs : List Char) : Option (List Char) := cls1 isSpaceC cs

/-- An optional single character of class `p`. -/
def optC (p : Char → Bool) (cs : List Char) : List Char :=
  match cs with
  | c :: rest => if p c then rest else cs
  | [] => []

/-- A `\b` boundary placed after a word character: the next character, if any,
is not a word character. -/
def noWordNext (cs : List Char) : Bool :=
  match cs with
  | c :: _ => !isWordChar c
  | [] => true

/-- `/^item\s+1a[\.\s\-—–]+risk\s+factors/i` as a prefix matcher. -/
def reRisk1 (cs : List Char) : Bool :=
  (do
    let r ← litCI (chars "item") cs
    let r ← sp1 r
    let r ← litCI (chars "1a") r
    let r ← cls1 isSectPunc r
    let r ← litCI (chars "risk") r
    let r ← sp1 r
    let _ ← litCI (chars "factors") r
    pure ()).isSome

/-- `/^item\s+1a\b/i` as a prefix matcher. -/
def reRisk2 (cs : List Char) : Bool :=
  match (do
    let r ← litCI (chars "item") cs
    let r ← sp1 r
    litCI (chars "1a") r) with
  | some r => noWordNext r
  | none => false

/-- `/^item\s+7[\.\s\-—–]+management'?s?\s+discussion/i` as a prefix matcher. -/
def reMdna1 (cs : List Char) : Bool :=
  (do
    let r ← litCI (chars "item") cs
    let r ← sp1 r
    let r ← litCI (chars "7") r
    let r ← cls1 isSectPunc r
    let r ← litCI (chars "management") r
    let r := optC (fun c => c == aposC) r
    let r := optC (fun c => c.toLower == 's') r
    let r ← sp1 r
    let _ ← litCI (chars "discussion") r
    pure ()).isSome

/-- `/^item\s+7\b(?!\s*a)/i` as a prefix matcher. -/
def reMdna2 (cs : List Char) : Bool :=
  match (do
    let r ← litCI (chars "item") cs
    let r ← sp1 r
    litCI (chars "7") r) with
  | some r =>
      noWordNext r &&
      !(match r.dropWhile isSpaceC with
        | c :: _ => c.toLower == 'a'
        | [] => false)
  | none => false

/-- `/^item\s+8[\.\s\-—–]+financial\s+statements/i` as a prefix matcher. -/
def reFin1 (cs : List Char) : Bool :=
  (do
    let r ← litCI (chars "item") cs
    let r ← sp1 r
    let r ← litCI (chars "8") r
    let r ← cls1 isSectPunc r
    let r ← litCI (chars "financial") r
    let r ← sp1 r
    let _ ← litCI (chars "statements") r
    pure ()).isSome

/-- `/^item\s+8\b/i` as a prefix matcher. -/
def reFin2 (cs : List Char) : Bool :=
  match (do
    let r ← litCI (chars "item") cs
    let r ← sp1 r
    litCI (chars "8") r) with
  | some r => noWordNext r
  | none => false

/-- `NEXT_ITEM_HEADING = /^item\s+\d+[a-z]?[\.\s\-—–]/i` as a prefix matcher. -/
def NEXT_ITEM_HEADING (cs : List Char) : Bool :=
  (do
    let r ← litCI (chars "item") cs
    let r ← sp1 r
    let r ← cls1 Char.isDigit r
    let r := optC isAsciiLetter r
    match r with
    | c :: _ => if isSectPunc c then some () else none
    | [] => none).isSome

/-- First index at which the prefix matcher `m` matches, modelling
`RegExp.exec` of an unanchored pattern (leftmost match index). -/
def findMatchIdx (m : List Char → Bool) : List Char → Option Nat
  | [] => if m [] then some 0 else none
  | c :: cs => if m (c :: cs) then some 0 else (findMatchIdx m cs).map (· + 1)

/-- Maximal runs of non-`p` characters, in order: the word list of
`replace(/\s+/g, ' ').trim()` style normalization. -/
def wordsByAux (p : Char → Bool) (cur : List Char) : List Char → List (List Char)
  | [] => if cur.isEmpty then [] else [cur.reverse]
  | c :: cs =>
      if p c then
        if cur.isEmpty then wordsByAux p [] cs
        else cur.reverse :: wordsByAux p [] cs
      else wordsByAux p (c :: cur) cs

/-- `text.replace(/\s+/g, ' ').trim()`. -/
def normWs (cs : List Char) : List Char :=
  List.intercalate [' '] (wordsByAux isSpaceC [] cs)

/-- `String.prototype.trim` on `List Char`. -/
def trimChars (cs : List Char) : List Char :=
  ((cs.dropWhile isSpaceC).reverse.dropWhile isSpaceC).reverse

/-- `text.split('\n')`. -/
def splitLinesAux (cur : List Char) : List Char → List (List Char)
  | [] => [cur.reverse]
  | c :: cs =>
      if c = '\n' then cur.reverse :: splitLinesAux [] cs
      else splitLinesAux (c :: cur) cs

def splitLines (cs : List Char) : List (List Char) := splitLinesAux [] cs

/-- `lines.join('\n')`. -/
def joinLines (ls : List (List Char)) : List Char := List.intercalate ['\n'] ls

/-!
The fractional JavaScript number literals of the source (confidence tiers,
thresholds, the score bonus) as rationals in lowest terms, given by numerator
and denominator so that they evaluate by kernel reduction.  Lemmas below
identify them with the corresponding quotients.
-/

/-- 0.95 -/
def q19_20 : ℚ := ⟨19, 20, by decide, by decide⟩

/-- 0.90 -/
def q9_10 : ℚ := ⟨9, 10, by decide, by decide⟩

/-- 0.85 -/
def q17_20 : ℚ := ⟨17, 20, by decide, by decide⟩

/-- 0.75 -/
def q3_4 : ℚ := ⟨3, 4, by decide, by decide⟩

/-- 0.5 -/
def q1_2 : ℚ := ⟨1, 2, by decide, by decide⟩

/-! ## Section locator (`src/analysis/locator.ts`) -/

structure SectionMatch where
  name : String
  found : Bool
  confidence : ℚ
  startOffset : Int
  endOffset : Int
  lengthChars : Nat
  content : List Char
deriving DecidableEq

structure SectionPatternL where
  key : String
  requireKeys : List String
  headingPatterns : List (List Char → Bool)

def SECTION_PATTERNS : List SectionPatternL :=
  [ { key := "risk_factors",
      requireKeys := ["risk-factors", "risk_factors"],
      headingPatterns := [reRisk1, reRisk2] },
    { key := "mdna",
      requireKeys := ["mdna", "md&a", "mda"],
      headingPatterns := [reMdna1, reMdna2] },
    { key := "financials",
      requireKeys := ["financials", "financial-statements", "financial_statements"],
      headingPatterns := [reFin1, reFin2] } ]

def makeNotFound (name : String) : SectionMatch :=
  { name := name, found := false, confidence := 0, startOffset := -1,
    endOffset := -1, lengthChars := 0, content := [] }

/-- `key.toLowerCase()` on ASCII. -/
def lowerStr (s : String) : String := ⟨s.data.map Char.toLower⟩

def matchesSectionKey (sectionName : String) (requireKey : String) : Bool :=
  match SECTION_PATTERNS.find? (fun p => p.key == sectionName) with
  | none => false
  | some p => p.requireKeys.contains (lowerStr requireKey)

/-- Gate of the heading scan: the normalized block text is neither longer than
150 characters nor shorter than 3. -/
def passGate (t : List Char) : Bool := !(t.length > 150 || t.length < 3)

/-- First loop of `findSectionByDomSiblings`: find the first block passing the
gate on which some heading pattern matches; return its index and the index of
the first matching pattern. -/
def headingScan (pats : List (List Char → Bool)) :
    List (List Char) → Nat → Option (Nat × Nat)
  | [], _ => none
  | b :: bs, i =>
      let t := normWs b
      if passGate t then
        match pats.findIdx? (fun p => p t) with
        | some pi => some (i, pi)
        | none => headingScan pats bs (i + 1)
      else headingScan pats bs (i + 1)

/-- Second loop of `findSectionByDomSiblings`: accumulate normalized block
texts (of length > 2) until a short block matching `NEXT_ITEM_HEADING`, and
report the end index. -/
def collectContent : List (List Char) → Nat → List (List Char) × Nat
  | [], i => ([], i)
  | b :: bs, i =>
      let t := normWs b
      if t.length < 100 && NEXT_ITEM_HEADING t then ([], i)
      else
        let rest := collectContent bs (i + 1)
        (if t.length > 2 then t :: rest.1 else rest.1, rest.2)

def findSectionByDomSiblings (bodyDivs : List (List Char))
    (pattern : SectionPatternL) : SectionMatch :=
  match headingScan pattern.headingPatterns bodyDivs 0 with
  | none => makeNotFound pattern.key
  | some hp =>
      let res := collectContent (bodyDivs.drop (hp.1 + 1)) (hp.1 + 1)
      let content := joinLines res.1
      { name := pattern.key, found := true,
        confidence := if hp.2 = 0 then q19_20 else q9_10,
        startOffset := (hp.1 : Int), endOffset := (res.2 : Int),
        lengthChars := content.length, content := content }

def locateInHtml (bodyDivs : List (List Char)) : List SectionMatch :=
  SECTION_PATTERNS.map (findSectionByDomSiblings bodyDivs)

def CONTENT_CHAR_CAP : Nat := 100000
def FALLBACK_LINE_CAP : Nat := 800

/-- One iteration test of the end-of-section loop of `extractTextSection`:
the trimmed line is not shorter than 3 characters, matches
`NEXT_ITEM_HEADING`, and is shorter than 150 characters. -/
def headingLineB (l : List Char) : Bool :=
  let t := trimChars l
  !(t.length < 3) && (NEXT_ITEM_HEADING t && t.length < 150)

def findEndIdxAux : List (List Char) → Nat → Option Nat
  | [], _ => none
  | l :: ls, i => if headingLineB l then some i else findEndIdxAux ls (i + 1)

/-- The `for (let i = 3; ...)` scan of `extractTextSection`. -/
def findEndIdx (lines : List (List Char)) : Option Nat :=
  findEndIdxAux (lines.drop 3) 3

def extractTextSection (text : List Char) (startOffset : Nat) : List Char :=
  let lines := splitLines (text.drop startOffset)
  let sectionLines :=
    match findEndIdx lines with
    | some e => lines.take e
    | none => lines.take FALLBACK_LINE_CAP
  let content := trimChars (joinLines sectionLines)
  if content.length > CONTENT_CHAR_CAP then content.take CONTENT_CHAR_CAP
  else content

def textFoundMatch (key : String) (text : List Char) (pi : Nat) (idx : Nat) :
    SectionMatch :=
  let sectionContent := extractTextSection text idx
  { name := key, found := true,
    confidence := if pi = 0 then q9_10 else q17_20,
    startOffset := (idx : Int),
    endOffset := (idx : Int) + sectionContent.length,
    lengthChars := sectionContent.length, content := sectionContent }

/-- The `for (let pi = 0; ...)` loop of `locateInText` for one section
pattern (the leading `^` anchors are stripped, so each pattern is searched
over the whole text). -/
def locateInTextGo (key : String) (text : List Char) :
    List (List Char → Bool) → Nat → SectionMatch
  | [], _ => makeNotFound key
  | p :: ps, pi =>
      match findMatchIdx p text with
      | some idx => textFoundMatch key text pi idx
      | none => locateInTextGo key text ps (pi + 1)

def locateInText (text : List Char) : List SectionMatch :=
  SECTION_PATTERNS.map (fun pat => locateInTextGo pat.key text pat.headingPatterns 0)

inductive ContentType
  | html
  | pdf
  | text
deriving DecidableEq

/-- `locateSections`; the raw HTML string is represented by the list of its
`body > div` text blocks (the cheerio parse is an external collaborator). -/
def locateSections (rawHtmlBlocks : List (List Char)) (extractedText : List Char)
    (contentType : ContentType) : List SectionMatch :=
  if contentType = ContentType.html then locateInHtml rawHtmlBlocks
  else locateInText extractedText

/-! ## Section validator (`src/analysis/validator.ts`) -/

def MIN_SECTION_LENGTH : Nat := 500

/-- One failure message of the validator, with the formatted string abstracted
to a tagged value carrying the data interpolated into the message. -/
inductive ValidationFailure
  | notFound (key : String)
  | confidenceBelow (key : String) (confidence threshold : ℚ)
  | tooShort (key : String) (lengthChars : Nat)
deriving DecidableEq

def resolveSection (sections : List SectionMatch) (reqKey : String) :
    Option SectionMatch :=
  sections.find? (fun s => matchesSectionKey s.name reqKey)

/-- The failures pushed for one required key by the loop of
`validateSections`, in push order. -/
def keyFailures (sections : List SectionMatch) (confidenceThreshold : ℚ)
    (reqKey : String) : List ValidationFailure :=
  match resolveSection sections reqKey with
  | none => [.notFound reqKey]
  | some sec =>
      if !sec.found then [.notFound reqKey]
      else
        (if sec.confidence < confidenceThreshold then
          [.confidenceBelow reqKey sec.confidence confidenceThreshold]
        else []) ++
        (if sec.lengthChars < MIN_SECTION_LENGTH then
          [.tooShort reqKey sec.lengthChars]
        else [])

def collectFailures (sections : List SectionMatch) (requiredKeys : List String)
    (confidenceThreshold : ℚ) : List ValidationFailure :=
  (requiredKeys.map (keyFailures sections confidenceThreshold)).flatten

/-- `validateSections`: `.error` models the thrown composite error; the
non-throwing paths (no failures, or soft warning when `hardFail` is unset)
return `.ok`. -/
def validateSections (sections : List SectionMatch) (requiredKeys : List String)
    (confidenceThreshold : ℚ) (hardFail : Bool) :
    Except (List ValidationFailure) Unit :=
  let failures := collectFailures sections requiredKeys confidenceThreshold
  if failures.length > 0 then
    if hardFail then .error failures else .ok ()
  else .ok ()

/-! ## Summarizer (`src/analysis/summarizer.ts`) -/

structure SectionAnalysis where
  name : String
  found : Bool
  confidence : ℚ
  summary : List (List Char)
  evidence : List (List Char)
deriving DecidableEq

structure AnalysisResult where
  sections : List SectionAnalysis
  overallSummary : List (List Char)
deriving DecidableEq

def MAX_SUMMARY_POINTS : Nat := 5
def MAX_EVIDENCE_SNIPPETS : Nat := 3

def RISK_KEYWORDS : List (List Char) :=
  [chars "risk", chars "adverse", chars "uncertainty", chars "litigation",
   chars "regulatory", chars "competition", chars "cybersecurity",
   chars "supply chain", chars "economic", chars "volatility",
   chars "liability", chars "compliance", chars "disruption"]

def FINANCIAL_KEYWORDS : List (List Char) :=
  [chars "revenue", chars "income", chars "loss", chars "margin",
   chars "earnings", chars "cash flow", chars "assets", chars "liabilities",
   chars "debt", chars "capital", chars "dividend", chars "operating",
   chars "growth", chars "decline", chars "increase", chars "decrease"]

def MDNA_KEYWORDS : List (List Char) :=
  [chars "revenue", chars "growth", chars "margin", chars "decline",
   chars "increase", chars "segment", chars "operating", chars "strategy",
   chars "outlook", chars "trend", chars "driver", chars "year-over-year",
   chars "compared to", chars "primarily due", chars "result of"]

/-- `SENTENCE_END = /(?<=[.!?])\s+/` used with `split`: a boundary is a
whitespace run preceded by sentence-ending punctuation; the punctuation stays
with the preceding sentence and the run is consumed. -/
def isSentEnd (c : Char) : Bool := c == '.' || c == '!' || c == '?'

def splitSentencesAux (cur : List Char) : List Char → List (List Char)
  | [] => [cur.reverse]
  | c :: rest =>
      if isSentEnd c &&
          (match rest with
           | r :: _ => isSpaceC r
           | [] => false) then
        (cur.reverse ++ [c]) :: splitSentencesAux [] (rest.dropWhile isSpaceC)
      else splitSentencesAux (c :: cur) rest
termination_by cs => cs.length
decreasing_by
  · simp only [List.length_cons]
    exact Nat.lt_succ_of_le (List.dropWhile_sublist isSpaceC).length_le
  · simp

def splitSentences (text : List Char) : List (List Char) :=
  ((splitSentencesAux [] text).map trimChars).filter (fun s => s.length > 0)

def toLowerL (cs : List Char) : List Char := cs.map Char.toLower

/-- `haystack.includes(needle)`: substring containment. -/
def containsSub (pat : List Char) : List Char → Bool
  | [] => pat.isEmpty
  | c :: cs => pat.isPrefixOf (c :: cs) || containsSub pat cs

/-- First character pair of a `/\$[\d,.]+/` match at the given position. -/
def currencyAt : List Char → Bool
  | '$' :: c :: _ => c.isDigit || c == ',' || c == '.'
  | _ => false

def hasCurrency (cs : List Char) : Bool := (findMatchIdx currencyAt cs).isSome

/-- `/\d+(\.\d+)?%/` matched at the given position (possessively; the classes
involved are disjoint, so this coincides with backtracking semantics). -/
def percentAt (cs : List Char) : Bool :=
  match cls1 Char.isDigit cs with
  | none => false
  | some r =>
      let r2 :=
        match r with
        | c :: rest =>
            if c = '.' then
              match cls1 Char.isDigit rest with
              | some q => q
              | none => r
            else r
        | [] => r
      match r2 with
      | c :: _ => c = '%'
      | [] => false

def hasPercent (cs : List Char) : Bool := (findMatchIdx percentAt cs).isSome

structure ScoredSentence where
  text : List Char
  score : ℚ
deriving DecidableEq

/-- The keyword-count score: +1 per keyword occurring (as a substring of the
lowercased sentence). -/
def keywordScore (keywords : List (List Char)) (lower : List Char) : ℚ :=
  keywords.foldl
    (fun acc kw => if containsSub (toLowerL kw) lower then acc + 1 else acc) 0

/-- Stable insertion of a sentence into a descending-by-score list: the new
element goes after all strictly-greater and all equal scores seen so far. -/
def insertDesc (x : ScoredSentence) : List ScoredSentence → List ScoredSentence
  | [] => [x]
  | y :: ys => if x.score < y.score then y :: insertDesc x ys else x :: y :: ys

/-- Stable descending sort by score, modelling the (stable)
`scored.sort((a, b) => b.score - a.score)`. -/
def sortDescStable : List ScoredSentence → List ScoredSentence
  | [] => []
  | x :: xs => insertDesc x (sortDescStable xs)

def scoreSentences (sentences : List (List Char)) (keywords : List (List Char)) :
    List ScoredSentence :=
  let scored := (sentences.filter (fun s => s.length > 30 && s.length < 500)).map
    (fun text =>
      let lower := toLowerL text
      let base := keywordScore keywords lower
      { text := text,
        score := if hasCurrency text || hasPercent text then base + q1_2 else base })
  sortDescStable scored

def getKeywordsForSection (name : String) : List (List Char) :=
  if name = "risk_factors" then RISK_KEYWORDS
  else if name = "mdna" then MDNA_KEYWORDS
  else if name = "financials" then FINANCIAL_KEYWORDS
  else RISK_KEYWORDS ++ FINANCIAL_KEYWORDS

def sectionKeyToName (key : String) : String :=
  let k := lowerStr key
  if k = "risk-factors" then "risk_factors"
  else if k = "risk_factors" then "risk_factors"
  else if k = "mdna" then "mdna"
  else if k = "md&a" then "mdna"
  else if k = "mda" then "mdna"
  else if k = "financials" then "financials"
  else if k = "financial-statements" then "financials"
  else if k = "financial_statements" then "financials"
  else key

def truncate (text : List Char) (maxLen : Nat) : List Char :=
  if text.length ≤ maxLen then text else text.take (maxLen - 3) ++ chars "..."

/-- The body of the per-key loop of `generateAnalysis`. -/
def analyzeKey (sections : List SectionMatch) (reqKey : String) : SectionAnalysis :=
  match resolveSection sections reqKey with
  | none =>
      { name := sectionKeyToName reqKey, found := false, confidence := 0,
        summary := [], evidence := [] }
  | some sec =>
      if !sec.found then
        { name := sectionKeyToName reqKey, found := false, confidence := 0,
          summary := [], evidence := [] }
      else
        let keywords := getKeywordsForSection sec.name
        let sentences := splitSentences sec.content
        let scored := scoreSentences sentences keywords
        { name := sec.name, found := true, confidence := sec.confidence,
          summary := (scored.take MAX_SUMMARY_POINTS).map (fun s => s.text),
          evidence := (scored.take MAX_EVIDENCE_SNIPPETS).map
            (fun s => truncate s.text 200) }

def buildOverallSummary (analyses : List SectionAnalysis) : List (List Char) :=
  let found := analyses.filter (fun a => a.found)
  let missing := analyses.filter (fun a => !a.found)
  let s1 :=
    if found.length > 0 then
      [chars ("Analyzed " ++ toString found.length ++ " section(s): " ++
        String.intercalate ", " (found.map (fun a => a.name)) ++ ".")]
    else []
  let s2 :=
    if missing.length > 0 then
      [chars ("Missing section(s): " ++
        String.intercalate ", " (missing.map (fun a => a.name)) ++ ".")]
    else []
  let s3 := found.filterMap (fun a =>
    match a.summary with
    | s0 :: _ => some (chars (a.name ++ ": ") ++ s0)
    | [] => none)
  s1 ++ s2 ++ s3

def generateAnalysis (sections : List SectionMatch) (requiredKeys : List String) :
    AnalysisResult :=
  let analyses := requiredKeys.map (analyzeKey sections)
  { sections := analyses, overallSummary := buildOverallSummary analyses }

/-! ## Workflow planner (`src/control-plane/workflow.ts`) -/

inductive InvocationMode
  | command
  | intent
deriving DecidableEq

inductive StepName
  | fetch
  | extract
  | locate_sections
  | validate
  | generate
  | emit_ledger
deriving DecidableEq

inductive StepStatus
  | passed
  | failed
  | skipped
deriving DecidableEq

structure AnalyzeOptions where
  ticker : String
  year : Int
  mode : InvocationMode
  format : String
  out : String
  source : String
  url : Option String := none
  require : List String
  strict : Bool
  cache : Bool
  invocationId : String
deriving DecidableEq

/-- A workflow step as planned: its name and required flag.  The `execute`
closure of the TypeScript `WorkflowStep` is an I/O action; its outcome is
modelled separately by the orchestrator's step-outcome oracle. -/
structure WorkflowStepSig where
  name : StepName
  required : Bool
deriving DecidableEq

structure WorkflowPlan where
  steps : List WorkflowStepSig
  skippedSteps : List StepName
  confidenceThreshold : ℚ
deriving DecidableEq

structure StepResult where
  name : StepName
  status : StepStatus
  durationMs : Nat
  error : Option String := none
deriving DecidableEq

structure WorkflowContext where
  options : AnalyzeOptions
  rawContent : List Char
  contentType : ContentType
  extractedText : List Char
  sections : List SectionMatch
  analyses : List SectionAnalysis
  stepResults : List StepResult
  overallSummary : List (List Char)
deriving DecidableEq

def COMMAND_CONFIDENCE_THRESHOLD : ℚ := q3_4
def INTENT_CONFIDENCE_THRESHOLD : ℚ := q1_2

def buildWorkflow (options : AnalyzeOptions) : WorkflowPlan :=
  let isCommand : Bool := options.mode == InvocationMode.command
  { steps :=
      [ { name := .fetch, required := true },
        { name := .extract, required := true },
        { name := .locate_sections, required := true },
        { name := .validate, required := isCommand },
        { name := .generate, required := isCommand },
        { name := .emit_ledger, required := true } ],
    skippedSteps := [],
    confidenceThreshold :=
      if isCommand then COMMAND_CONFIDENCE_THRESHOLD
      else INTENT_CONFIDENCE_THRESHOLD }

/-! ## Ledger builder (`src/ledger/ledger.ts`) -/

structure SectionValidationEntry where
  found : Bool
  confidence : ℚ
  lengthChars : Nat
deriving DecidableEq

structure AuditLedger where
  invocationId : String
  timestamp : String
  mode : InvocationMode
  deterministic : Bool
  workflow : String
  requiredSteps : List StepName
  executedSteps : List StepName
  skippedSteps : List StepName
  durationsMs : List (StepName × Nat)
  sectionValidation : List (String × SectionValidationEntry)
  passed : Bool
  failureReason : Option String
deriving DecidableEq

def ALL_REQUIRED_STEPS : List StepName :=
  [.fetch, .extract, .locate_sections, .validate, .generate, .emit_ledger]

/-- `record[k] = v` for a JavaScript object modelled as an insertion-ordered
association list: overwrite in place if the key is present, else append. -/
def recordSet {α : Type} [DecidableEq α] {β : Type} (m : List (α × β)) (k : α)
    (v : β) : List (α × β) :=
  if m.any (fun p => decide (p.1 = k)) then
    m.map (fun p => if p.1 = k then (k, v) else p)
  else m ++ [(k, v)]

/-- The `for (const result of ctx.stepResults)` loop of `buildLedger`,
threading the durations record, the executed list and the skipped list. -/
def ledgerScan : List StepResult → List (StepName × Nat) → List StepName →
    List StepName → List (StepName × Nat) × List StepName × List StepName
  | [], durs, executed, skipped => (durs, executed, skipped)
  | r :: rest, durs, executed, skipped =>
      let durs := recordSet durs r.name r.durationMs
      match r.status with
      | .passed => ledgerScan rest durs (executed ++ [r.name]) skipped
      | .failed => ledgerScan rest durs (executed ++ [r.name]) skipped
      | .skipped =>
          if r.name ∈ skipped then ledgerScan rest durs executed skipped
          else ledgerScan rest durs executed (skipped ++ [r.name])

def sectionSnapshot (sections : List SectionMatch) :
    List (String × SectionValidationEntry) :=
  sections.foldl
    (fun m s => recordSet m s.name
      { found := s.found, confidence := s.confidence, lengthChars := s.lengthChars })
    []

/-- `buildLedger`; the `new Date().toISOString()` clock read is modelled by
the explicit `now` input (it is not an argument of the TypeScript function). -/
def buildLedger (ctx : WorkflowContext) (plan : WorkflowPlan) (passed : Bool)
    (failureReason : Option String) (now : String) : AuditLedger :=
  let scan := ledgerScan ctx.stepResults [] [] plan.skippedSteps
  { invocationId := ctx.options.invocationId,
    timestamp := now,
    mode := ctx.options.mode,
    deterministic := ctx.options.mode == InvocationMode.command,
    workflow := "analyze_10k_v1",
    requiredSteps := ALL_REQUIRED_STEPS,
    executedSteps := scan.2.1,
    skippedSteps := scan.2.2,
    durationsMs := scan.1,
    sectionValidation := sectionSnapshot ctx.sections,
    passed := passed,
    failureReason := failureReason }

/-! ## Orchestrator (modelled from the spec) -/

/-- Outcome of one step's work unit, as observed by the orchestrator: either
normal completion or a thrown error with its message. -/
inductive StepOutcome
  | ok
  | err (msg : String)
deriving DecidableEq

/-- Modelled from the spec: `src/control-plane/orchestrator.ts` is not under
`src/` (only its callers are), so the step-sequencing loop is modelled from
§4.2 of the spec.  Steps run strictly in plan order; a step whose name is in
`skippedSteps` transitions directly to `skipped` with duration 0; otherwise
its work runs (outcome given by the `oracle`, measured duration by `dur`) and
the step transitions to `passed`, or to `failed` with the error message
captured.  Enforcement rule: a failure of a step marked `required` while the
run mode is strict (`command` — the spec's strict/deterministic mode)
immediately halts further step execution.  Returns the step results in
execution order, the halted flag, and the failure reason of the halting step. -/
def runSteps (mode : InvocationMode) (skippedSteps : List StepName)
    (oracle : StepName → StepOutcome) (dur : StepName → Nat) :
    List WorkflowStepSig → List StepResult × Bool × Option String
  | [] => ([], false, none)
  | step :: rest =>
      if step.name ∈ skippedSteps then
        let r := runSteps mode skippedSteps oracle dur rest
        ({ name := step.name, status := .skipped, durationMs := 0 } :: r.1,
          r.2.1, r.2.2)
      else
        match oracle step.name with
        | .ok =>
            let r := runSteps mode skippedSteps oracle dur rest
            ({ name := step.name, status := .passed,
               durationMs := dur step.name } :: r.1, r.2.1, r.2.2)
        | .err msg =>
            if step.required && mode == InvocationMode.command then
              ([{ name := step.name, status := .failed,
                  durationMs := dur step.name, error := some msg }],
                true, some msg)
            else
              let r := runSteps mode skippedSteps oracle dur rest
              ({ name := step.name, status := .failed,
                 durationMs := dur step.name, error := some msg } :: r.1,
                r.2.1, r.2.2)

structure RunOutcome where
  emittedLedgers : List AuditLedger
  stepResults : List StepResult
  halted : Bool
  analysisEmitted : Bool
deriving DecidableEq

/-- Modelled from the spec: one whole run (§4.2, §6).  After the step
sequence completes, or after an enforced halt, the ledger is built and
emitted exactly once, with `passed` false and the failure reason on a halt;
the analysis artifact is emitted only if the run passed.  The fields of the
run context that the ledger reads but that are written by step effects
(`sections`) are supplied by the `finalSections` parameter; the remaining
context fields do not influence the ledger's step reconciliation. -/
def runWorkflow (options : AnalyzeOptions) (plan : WorkflowPlan)
    (oracle : StepName → StepOutcome) (dur : StepName → Nat)
    (finalSections : List SectionMatch) (ct : ContentType) (now : String) :
    RunOutcome :=
  let r := runSteps options.mode plan.skippedSteps oracle dur plan.steps
  let results := r.1
  let halted := r.2.1
  let reason := r.2.2
  let ctx : WorkflowContext :=
    { options := options, rawContent := [], contentType := ct,
      extractedText := [], sections := finalSections, analyses := [],
      stepResults := results, overallSummary := [] }
  let ledger := buildLedger ctx plan (!halted) reason now
  { emittedLedgers := [ledger], stepResults := results, halted := halted,
    analysisEmitted := !halted }

/-- Whether the work unit of the named step throws. -/
def stepFails (oracle : StepName → StepOutcome) (n : StepName) : Bool :=
  match oracle n with
  | .ok => false
  | .err _ => true

/-- The enforcement-rule trigger of §4.2 for one planned step: the step is
not skipped, it is marked required, the run mode is strict (`command`), and
its work unit throws. -/
def haltTriggerB (mode : InvocationMode) (skips : List StepName)
    (oracle : StepName → StepOutcome) (s : WorkflowStepSig) : Bool :=
  !(decide (s.name ∈ skips)) &&
    (s.required && (mode == InvocationMode.command)) && stepFails oracle s.name

/-- The C1 coverage property of a ledger: every name of the fixed six-step
universe appears in exactly one of `executedSteps` and `skippedSteps`, and
appears there exactly once. -/
def coversExactlyOnce (led : AuditLedger) : Prop :=
  ∀ name ∈ ALL_REQUIRED_STEPS,
    (name ∈ led.executedSteps ∧ name ∉ led.skippedSteps ∧
      led.executedSteps.count name = 1) ∨
    (name ∈ led.skippedSteps ∧ name ∉ led.executedSteps ∧
      led.skippedSteps.count name = 1)

instance (led : AuditLedger) : Decidable (coversExactlyOnce led) := by
  unfold coversExactlyOnce; infer_instance

/-! ## Concrete inputs used by counterexamples and witnesses -/

def optsCmd : AnalyzeOptions :=
  { ticker := "AAPL", year := 2023, mode := .command, format := "json",
    out := "./out", source := "sec", require := ["risk-factors", "mdna", "financials"],
    strict := true, cache := true, invocationId := "inv_20240101_abc123" }

def optsIntent : AnalyzeOptions :=
  { ticker := "AAPL", year := 2023, mode := .intent, format := "json",
    out := "./out", source := "sec", require := ["risk-factors"],
    strict := false, cache := true, invocationId := "inv_20240101_def456" }

/-- Step-outcome oracle of a run in which the `extract` step throws (the
in-code `Extracted text too short` guard) and every other step succeeds. -/
def oracleFailExtract : StepName → StepOutcome
  | .extract => .err "Extracted text too short (120 chars). Filing may be malformed."
  | _ => .ok

def oracleAllOk : StepName → StepOutcome := fun _ => .ok

/-- A concrete strict-mode run halted by the enforcement rule at `extract`. -/
def c1CexRun : RunOutcome :=
  runWorkflow optsCmd (buildWorkflow optsCmd) oracleFailExtract (fun _ => 1) []
    ContentType.html "2024-01-01T00:00:00.000Z"

/-- A concrete lenient-mode run with a router-supplied skip set, completing
without a halt. -/
def c1WitRun : RunOutcome :=
  runWorkflow optsIntent
    { buildWorkflow optsIntent with skippedSteps := [.validate] }
    oracleAllOk (fun _ => 1) [] ContentType.html "2024-01-01T00:00:00.000Z"

def emptyLedger : AuditLedger :=
  { invocationId := "", timestamp := "", mode := .intent, deterministic := false,
    workflow := "", requiredSteps := [], executedSteps := [], skippedSteps := [],
    durationsMs := [], sectionValidation := [], passed := false,
    failureReason := none }

def c1WitLedger : AuditLedger := c1WitRun.emittedLedgers.headD emptyLedger

/-- The same halted strict-mode run, used to witness the orchestrator
contract. -/
def c2WitRun : RunOutcome :=
  runWorkflow optsCmd (buildWorkflow optsCmd) oracleFailExtract (fun _ => 1) []
    ContentType.html "2024-01-01T00:00:00.000Z"

def c3Ctx : WorkflowContext :=
  { options := optsCmd, rawContent := [], contentType := .html,
    extractedText := [], sections := [], analyses := [], stepResults := [],
    overallSummary := [] }

/-- A located section that is found with high confidence but too short. -/
def c4Sec : SectionMatch :=
  { name := "risk_factors", found := true, confidence := q19_20,
    startOffset := 0, endOffset := 100, lengthChars := 100,
    content := chars "short body" }

def c4Sections : List SectionMatch := [c4Sec]

def c8Text : List Char :=
  chars "Item 1A. Risk Factors\nrisky business one\nrisky business two\nx\nItem 2. Properties\nmore text"

def c9Text : List Char := c8Text

def c9Match : SectionMatch :=
  match locateSections [] c9Text ContentType.text with
  | m :: _ => m
  | [] => makeNotFound ""

/-- No heading pattern of the given section matches the input, in the sense
of the path taken by `locateSections`: on the structured-markup path, no
block passing the length gate matches any of the section's patterns; on the
flat-text path, no pattern matches at any position of the text. -/
def patNoMatch (blocks : List (List Char)) (text : List Char) (ct : ContentType)
    (pat : SectionPatternL) : Prop :=
  if ct = ContentType.html then
    ∀ b ∈ blocks, ¬(passGate (normWs b) = true ∧
      ∃ p ∈ pat.headingPatterns, p (normWs b) = true)
  else ∀ p ∈ pat.headingPatterns, findMatchIdx p text = none

/-! ## The fractional constants in quotient form -/

theorem q19_20_eq : q19_20 = 19/20 := by
  unfold q19_20; rw [Rat.mk'_eq_divInt, Rat.divInt_eq_div]; norm_num

theorem q9_10_eq : q9_10 = 9/10 := by
  unfold q9_10; rw [Rat.mk'_eq_divInt, Rat.divInt_eq_div]; norm_num

theorem q17_20_eq : q17_20 = 17/20 := by
  unfold q17_20; rw [Rat.mk'_eq_divInt, Rat.divInt_eq_div]; norm_num

theorem q3_4_eq : q3_4 = 3/4 := by
  unfold q3_4; rw [Rat.mk'_eq_divInt, Rat.divInt_eq_div]; norm_num

theorem q1_2_eq : q1_2 = 1/2 := by
  unfold q1_2; rw [Rat.mk'_eq_divInt, Rat.divInt_eq_div]; norm_num

/-! ## Locator shape lemmas -/

theorem findSectionByDomSiblings_props (blocks : List (List Char))
    (pat : SectionPatternL) :
    (findSectionByDomSiblings blocks pat).name = pat.key ∧
    (findSectionByDomSiblings blocks pat).lengthChars =
      (findSectionByDomSiblings blocks pat).content.length ∧
    ((findSectionByDomSiblings blocks pat).found = false →
      findSectionByDomSiblings blocks pat = makeNotFound pat.key) ∧
    ((findSectionByDomSiblings blocks pat).found = true →
      (findSectionByDomSiblings blocks pat).confidence = q19_20 ∨
      (findSectionByDomSiblings blocks pat).confidence = q9_10) := by
  unfold findSectionByDomSiblings
  cases h : headingScan pat.headingPatterns blocks 0 with
  | none => simp [makeNotFound]
  | some hp =>
      refine ⟨rfl, rfl, by simp, fun _ => ?_⟩
      by_cases h0 : hp.2 = 0
      · left; simp [h0]
      · right; simp [h0]

theorem locateInTextGo_props (key : String) (text : List Char) :
    ∀ (ps : List (List Char → Bool)) (pi : Nat),
    (locateInTextGo key text ps pi).name = key ∧
    (locateInTextGo key text ps pi).lengthChars =
      (locateInTextGo key text ps pi).content.length ∧
    ((locateInTextGo key text ps pi).found = false →
      locateInTextGo key text ps pi = makeNotFound key) ∧
    ((locateInTextGo key text ps pi).found = true →
      (locateInTextGo key text ps pi).confidence = q9_10 ∨
      (locateInTextGo key text ps pi).confidence = q17_20) ∧
    (locateInTextGo key text ps pi).endOffset =
      (locateInTextGo key text ps pi).startOffset +
        ((locateInTextGo key text ps pi).content.length : Int)
  | [], _ => by simp [locateInTextGo, makeNotFound]
  | p :: ps, pi => by
      unfold locateInTextGo
      cases h : findMatchIdx p text with
      | none => simpa using locateInTextGo_props key text ps (pi + 1)
      | some idx =>
          refine ⟨rfl, rfl, by simp [textFoundMatch], fun _ => ?_, by simp [textFoundMatch]⟩
          by_cases h0 : pi = 0
          · left; simp [textFoundMatch, h0]
          · right; simp [textFoundMatch, h0]

theorem mem_locateSections_cases (blocks : List (List Char)) (text : List Char)
    (ct : ContentType) (m : SectionMatch)
    (hm : m ∈ locateSections blocks text ct) :
    (ct = ContentType.html ∧ ∃ pat ∈ SECTION_PATTERNS,
      m = findSectionByDomSiblings blocks pat) ∨
    (ct ≠ ContentType.html ∧ ∃ pat ∈ SECTION_PATTERNS, ∃ pi,
      m = locateInTextGo pat.key text pat.headingPatterns pi) := by
  unfold locateSections at hm
  by_cases h : ct = ContentType.html
  · rw [if_pos h] at hm
    obtain ⟨pat, hpat, rfl⟩ := List.mem_map.1 hm
    exact Or.inl ⟨h, pat, hpat, rfl⟩
  · rw [if_neg h] at hm
    obtain ⟨pat, hpat, rfl⟩ := List.mem_map.1 hm
    exact Or.inr ⟨h, pat, hpat, 0, rfl⟩

/-! ## Claim C5 -/

/-- C5: for every `RunOptions`, `buildWorkflow` returns the six steps in the
order fetch, extract, locate_sections, validate, generate, emit_ledger, with
fetch, extract, locate_sections and emit_ledger required unconditionally,
validate and generate required iff the mode is strict (`command`), an empty
`skippedSteps`, and the confidence threshold 0.75 in command mode and 0.5 in
intent mode, where the strict-mode threshold is at least the lenient-mode
threshold. -/
theorem spec_c5 (options : AnalyzeOptions) :
    ((buildWorkflow options).steps.map (fun s => s.name) =
      [.fetch, .extract, .locate_sections, .validate, .generate, .emit_ledger]) ∧
    ((buildWorkflow options).steps.map (fun s => s.required) =
      [true, true, true, options.mode == InvocationMode.command,
       options.mode == InvocationMode.command, true]) ∧
    (buildWorkflow options).skippedSteps = [] ∧
    (buildWorkflow options).confidenceThreshold =
      (if options.mode == InvocationMode.command then COMMAND_CONFIDENCE_THRESHOLD
       else INTENT_CONFIDENCE_THRESHOLD) ∧
    COMMAND_CONFIDENCE_THRESHOLD = 3/4 ∧
    INTENT_CONFIDENCE_THRESHOLD = 1/2 ∧
    INTENT_CONFIDENCE_THRESHOLD ≤ COMMAND_CONFIDENCE_THRESHOLD := by
  refine ⟨rfl, rfl, rfl, rfl, q3_4_eq, q1_2_eq, ?_⟩
  unfold COMMAND_CONFIDENCE_THRESHOLD INTENT_CONFIDENCE_THRESHOLD
  rw [q3_4_eq, q1_2_eq]
  norm_num

/-! ## Claim C3 -/

/-- C3 counterexample: `buildLedger` reads the clock
(`new Date().toISOString()`), modelled by the explicit `now` input, so two
calls with identical arguments (context, plan, pass flag, failure reason) at
different instants return different `AuditLedger` values — the claimed purity
fails on the timestamp field. -/
theorem spec_c3_counterexample :
    buildLedger c3Ctx (buildWorkflow optsCmd) true none
        "2024-01-01T00:00:00.000Z" ≠
      buildLedger c3Ctx (buildWorkflow optsCmd) true none
        "2024-01-01T00:00:01.000Z" := by
  decide

/-- C3 (amended): apart from the clock-derived `timestamp` field, the ledger
built by `buildLedger` is a pure function of its arguments: for any two clock
readings, the results agree after erasing `timestamp`. -/
theorem spec_c3_amended (ctx : WorkflowContext) (plan : WorkflowPlan)
    (passed : Bool) (failureReason : Option String) (t1 t2 : String) :
    ({ buildLedger ctx plan passed failureReason t1 with timestamp := "" } :
        AuditLedger) =
      { buildLedger ctx plan passed failureReason t2 with timestamp := "" } :=
  rfl

/-! ## Claim C10 -/

/-- C10: every `SectionMatch` returned by `locateSections`, on both paths,
satisfies `lengthChars = content.length`; `found = false` implies empty
content, zero length and offsets −1; and on the flat-text path
`endOffset = startOffset + content.length`. -/
theorem spec_c10 (blocks : List (List Char)) (text : List Char)
    (ct : ContentType) (m : SectionMatch)
    (hm : m ∈ locateSections blocks text ct) :
    m.lengthChars = m.content.length ∧
    (m.found = false → m.content = [] ∧ m.lengthChars = 0 ∧
      m.startOffset = -1 ∧ m.endOffset = -1) ∧
    (ct ≠ ContentType.html →
      m.endOffset = m.startOffset + (m.content.length : Int)) := by
  rcases mem_locateSections_cases blocks text ct m hm with
    ⟨hct, pat, _, rfl⟩ | ⟨hct, pat, _, pi, rfl⟩
  · obtain ⟨_, hlen, hnf, _⟩ := findSectionByDomSiblings_props blocks pat
    refine ⟨hlen, fun hf => ?_, fun h => absurd hct h⟩
    rw [hnf hf]; exact ⟨rfl, rfl, rfl, rfl⟩
  · obtain ⟨_, hlen, hnf, _, hoff⟩ := locateInTextGo_props pat.key text pat.headingPatterns pi
    refine ⟨hlen, fun hf => ?_, fun _ => hoff⟩
    rw [hnf hf]; exact ⟨rfl, rfl, rfl, rfl⟩

/-- C10 witness: the not-found shape at a concrete input (empty document,
flat-text path). -/
theorem spec_c10_witness :
    (makeNotFound "mdna").content = [] ∧ (makeNotFound "mdna").lengthChars = 0 ∧
    (makeNotFound "mdna").startOffset = -1 ∧ (makeNotFound "mdna").endOffset = -1 :=
  (spec_c10 [] [] ContentType.text (makeNotFound "mdna") (by decide)).2.1 rfl

/-! ## Claim C6 -/

theorem headingScan_eq_none (pats : List (List Char → Bool)) :
    ∀ (blocks : List (List Char)) (i : Nat),
    (∀ b ∈ blocks, ¬(passGate (normWs b) = true ∧ ∃ p ∈ pats, p (normWs b) = true)) →
    headingScan pats blocks i = none
  | [], _, _ => rfl
  | b :: bs, i, h => by
      have hb := h b (List.mem_cons_self b bs)
      have hrest := fun b' hb' => h b' (List.mem_cons_of_mem _ hb')
      unfold headingScan
      by_cases hg : passGate (normWs b) = true
      · have hidx : pats.findIdx? (fun p => p (normWs b)) = none := by
          rw [List.findIdx?_eq_none_iff]
          intro p hp
          by_contra hcon
          exact hb ⟨hg, p, hp, by simpa using hcon⟩
        rw [if_pos hg, hidx]
        exact headingScan_eq_none pats bs (i + 1) hrest
      · rw [if_neg hg]
        exact headingScan_eq_none pats bs (i + 1) hrest

theorem locateInTextGo_eq_notFound (key : String) (text : List Char) :
    ∀ (ps : List (List Char → Bool)) (pi : Nat),
    (∀ p ∈ ps, findMatchIdx p text = none) →
    locateInTextGo key text ps pi = makeNotFound key
  | [], _, _ => rfl
  | p :: ps, pi, h => by
      unfold locateInTextGo
      rw [h p (List.mem_cons_self p ps)]
      exact locateInTextGo_eq_notFound key text ps (pi + 1)
        (fun q hq => h q (List.mem_cons_of_mem _ hq))

/-- C6: for every input document and content kind, `locateSections` returns
exactly three results, one per configured section pattern in the order
risk disclosure (`risk_factors`), discussion/analysis (`mdna`), financial
statements (`financials`); and every section whose heading patterns match
nowhere is returned as the `makeNotFound` record (found=false, confidence=0,
offsets −1, zero length, empty content). -/
theorem spec_c6 (blocks : List (List Char)) (text : List Char) (ct : ContentType) :
    (locateSections blocks text ct).length = 3 ∧
    (locateSections blocks text ct).map (fun m => m.name) =
      ["risk_factors", "mdna", "financials"] ∧
    (∀ (i : Nat) (pat : SectionPatternL),
      SECTION_PATTERNS[i]? = some pat → patNoMatch blocks text ct pat →
      (locateSections blocks text ct)[i]? = some (makeNotFound pat.key)) := by
  unfold locateSections
  by_cases h : ct = ContentType.html
  · rw [if_pos h]
    refine ⟨by simp [locateInHtml, SECTION_PATTERNS], ?_, ?_⟩
    · unfold locateInHtml
      rw [List.map_map]
      have : SECTION_PATTERNS.map
          ((fun m => m.name) ∘ findSectionByDomSiblings blocks) =
          SECTION_PATTERNS.map (fun p => p.key) :=
        List.map_congr_left
          (fun pat _ => (findSectionByDomSiblings_props blocks pat).1)
      rw [this]; rfl
    · intro i pat hpat hnm
      unfold locateInHtml
      rw [List.getElem?_map, hpat]
      have hnone : headingScan pat.headingPatterns blocks 0 = none := by
        apply headingScan_eq_none
        simpa [patNoMatch, h] using hnm
      simp [findSectionByDomSiblings, hnone]
  · rw [if_neg h]
    refine ⟨by simp [locateInText, SECTION_PATTERNS], ?_, ?_⟩
    · unfold locateInText
      rw [List.map_map]
      have : SECTION_PATTERNS.map
          ((fun m => m.name) ∘ fun pat =>
            locateInTextGo pat.key text pat.headingPatterns 0) =
          SECTION_PATTERNS.map (fun p => p.key) :=
        List.map_congr_left
          (fun pat _ => (locateInTextGo_props pat.key text pat.headingPatterns 0).1)
      rw [this]; rfl
    · intro i pat hpat hnm
      unfold locateInText
      rw [List.getElem?_map, hpat]
      have hgo : locateInTextGo pat.key text pat.headingPatterns 0 = makeNotFound pat.key := by
        apply locateInTextGo_eq_notFound
        simpa [patNoMatch, h] using hnm
      simp only [Option.map_some']
      rw [hgo]

/-- C6 witness: on the empty flat-text document, the discussion/analysis
entry (index 1) is the not-found record. -/
theorem spec_c6_witness :
    (locateSections [] [] ContentType.text)[1]? = some (makeNotFound "mdna") := by
  refine (spec_c6 [] [] ContentType.text).2.2 1
    { key := "mdna", requireKeys := ["mdna", "md&a", "mda"],
      headingPatterns := [reMdna1, reMdna2] } rfl ?_
  simp only [patNoMatch, if_neg (by decide : ¬(ContentType.text = ContentType.html))]
  intro p hp
  rcases List.mem_cons.1 hp with rfl | hp
  · decide
  · rcases List.mem_cons.1 hp with rfl | hp
    · decide
    · exact absurd hp (List.not_mem_nil p)

/-! ## Claim C9 -/

/-- C9: every found `SectionMatch` produced by the locator has confidence in
the set 0.85, 0.90, 0.95, hence for the threshold selected by
`buildWorkflow` in either mode (0.75 command, 0.5 intent) the
confidence-below-threshold check of the validator cannot fire on a
locator-produced found section. -/
theorem spec_c9 (blocks : List (List Char)) (text : List Char)
    (ct : ContentType) (options : AnalyzeOptions) (m : SectionMatch)
    (hm : m ∈ locateSections blocks text ct) (hf : m.found = true) :
    (m.confidence = 17/20 ∨ m.confidence = 9/10 ∨ m.confidence = 19/20) ∧
    ¬(m.confidence < (buildWorkflow options).confidenceThreshold) := by
  have hconf : m.confidence = q19_20 ∨ m.confidence = q9_10 ∨ m.confidence = q17_20 := by
    rcases mem_locateSections_cases blocks text ct m hm with
      ⟨_, pat, _, rfl⟩ | ⟨_, pat, _, pi, rfl⟩
    · rcases (findSectionByDomSiblings_props blocks pat).2.2.2 hf with h | h
      · exact Or.inl h
      · exact Or.inr (Or.inl h)
    · rcases (locateInTextGo_props pat.key text pat.headingPatterns pi).2.2.2.1 hf with h | h
      · exact Or.inr (Or.inl h)
      · exact Or.inr (Or.inr h)
  constructor
  · rcases hconf with hc | hc | hc
    · exact Or.inr (Or.inr (hc.trans q19_20_eq))
    · exact Or.inr (Or.inl (hc.trans q9_10_eq))
    · exact Or.inl (hc.trans q17_20_eq)
  · have hthr : (buildWorkflow options).confidenceThreshold = 3/4 ∨
        (buildWorkflow options).confidenceThreshold = 1/2 := by
      cases hmode : options.mode
      · left
        simp [buildWorkflow, hmode, COMMAND_CONFIDENCE_THRESHOLD, q3_4_eq]
      · right
        simp [buildWorkflow, hmode, INTENT_CONFIDENCE_THRESHOLD, q1_2_eq]
    have hconf' : m.confidence = 19/20 ∨ m.confidence = 9/10 ∨ m.confidence = 17/20 := by
      rcases hconf with hc | hc | hc
      · exact Or.inl (hc.trans q19_20_eq)
      · exact Or.inr (Or.inl (hc.trans q9_10_eq))
      · exact Or.inr (Or.inr (hc.trans q17_20_eq))
    rcases hconf' with hc | hc | hc <;> rcases hthr with ht | ht <;>
      rw [hc, ht] <;> norm_num

/-- C9 witness: the risk-factors section located in a concrete flat-text
document has a tier confidence and passes the command-mode threshold. -/
theorem spec_c9_witness :
    (c9Match.confidence = 17/20 ∨ c9Match.confidence = 9/10 ∨
      c9Match.confidence = 19/20) ∧
    ¬(c9Match.confidence < (buildWorkflow optsCmd).confidenceThreshold) :=
  spec_c9 [] c9Text ContentType.text optsCmd c9Match
    (List.mem_cons_self _ _) rfl

/-! ## Claim C7 -/

theorem truncate_length_le (t : List Char) : (truncate t 200).length ≤ 200 := by
  unfold truncate
  by_cases h : t.length ≤ 200
  · rw [if_pos h]; exact h
  · rw [if_neg h]
    have h3 : (chars "...").length = 3 := rfl
    rw [List.length_append, List.length_take, h3]
    omega

theorem analyzeKey_bounds (sections : List SectionMatch) (k : String) :
    (analyzeKey sections k).summary.length ≤ MAX_SUMMARY_POINTS ∧
    (analyzeKey sections k).evidence.length ≤ MAX_EVIDENCE_SNIPPETS ∧
    ∀ e ∈ (analyzeKey sections k).evidence, e.length ≤ 200 := by
  unfold analyzeKey
  cases hr : resolveSection sections k with
  | none => simp [MAX_SUMMARY_POINTS, MAX_EVIDENCE_SNIPPETS]
  | some sec =>
      cases hf : sec.found with
      | false => simp [hf, MAX_SUMMARY_POINTS, MAX_EVIDENCE_SNIPPETS]
      | true =>
          have hcond : ¬((!sec.found) = true) := by simp [hf]
          dsimp only
          rw [if_neg hcond]
          refine ⟨?_, ?_, ?_⟩
          · simp only [List.length_map, List.length_take]
            exact Nat.min_le_left _ _
          · simp only [List.length_map, List.length_take]
            exact Nat.min_le_left _ _
          · intro e he
            simp only [List.mem_map] at he
            obtain ⟨s, _, rfl⟩ := he
            exact truncate_length_le s.text

theorem analyzeKey_notFound (sections : List SectionMatch) (k : String)
    (h : ∀ s, resolveSection sections k = some s → s.found = false) :
    analyzeKey sections k =
      { name := sectionKeyToName k, found := false, confidence := 0,
        summary := [], evidence := [] } := by
  unfold analyzeKey
  cases hr : resolveSection sections k with
  | none => rfl
  | some sec => simp [h sec hr]

/-- C7: `generateAnalysis` returns exactly one `SectionAnalysis` per requested
key, in request order; every analysis has at most 5 summary sentences and at
most 3 evidence snippets, every evidence string is at most 200 characters, and
a requested key whose section is absent or not found yields found=false with
empty summary and evidence. -/
theorem spec_c7 (sections : List SectionMatch) (keys : List String) :
    (generateAnalysis sections keys).sections.length = keys.length ∧
    (∀ (i : Nat) (k : String), keys[i]? = some k →
      (generateAnalysis sections keys).sections[i]? = some (analyzeKey sections k)) ∧
    (∀ a ∈ (generateAnalysis sections keys).sections,
      a.summary.length ≤ MAX_SUMMARY_POINTS ∧
      a.evidence.length ≤ MAX_EVIDENCE_SNIPPETS ∧
      ∀ e ∈ a.evidence, e.length ≤ 200) ∧
    (∀ (i : Nat) (k : String), keys[i]? = some k →
      (∀ s, resolveSection sections k = some s → s.found = false) →
      (generateAnalysis sections keys).sections[i]? =
        some { name := sectionKeyToName k, found := false, confidence := 0,
               summary := [], evidence := [] }) := by
  have hsec : (generateAnalysis sections keys).sections =
      keys.map (analyzeKey sections) := rfl
  refine ⟨?_, ?_, ?_, ?_⟩
  · rw [hsec, List.length_map]
  · intro i k hk
    rw [hsec, List.getElem?_map, hk]
    rfl
  · intro a ha
    rw [hsec] at ha
    obtain ⟨k, _, rfl⟩ := List.mem_map.1 ha
    exact analyzeKey_bounds sections k
  · intro i k hk h
    rw [hsec, List.getElem?_map, hk]
    simp only [Option.map_some']
    rw [analyzeKey_notFound sections k h]

/-- C7 witness: a key requested over an empty located-sections list yields the
empty placeholder. -/
theorem spec_c7_witness :
    (generateAnalysis [] ["mdna"]).sections[0]? =
      some { name := sectionKeyToName "mdna", found := false, confidence := 0,
             summary := [], evidence := [] } :=
  (spec_c7 [] ["mdna"]).2.2.2 0 "mdna" rfl (fun _ hs => nomatch hs)

/-! ## Claim C4 -/

theorem keyFailures_ne_nil_iff (sections : List SectionMatch) (thr : ℚ)
    (k : String) :
    keyFailures sections thr k ≠ [] ↔
      ((∀ s, resolveSection sections k = some s → s.found = false) ∨
       (∃ s, resolveSection sections k = some s ∧ s.found = true ∧
         (s.confidence < thr ∨ s.lengthChars < MIN_SECTION_LENGTH))) := by
  unfold keyFailures
  cases hr : resolveSection sections k with
  | none =>
      simp only [ne_eq]
      exact ⟨fun _ => Or.inl (fun s hs => nomatch hs), fun _ => by simp⟩
  | some sec =>
      cases hf : sec.found with
      | false =>
          have hcond : (!sec.found) = true := by simp [hf]
          dsimp only
          rw [if_pos hcond]
          constructor
          · intro _
            refine Or.inl (fun s hs => ?_)
            injection hs with hs
            rw [← hs]; exact hf
          · intro _; simp
      | true =>
          have hcond : ¬((!sec.found) = true) := by simp [hf]
          dsimp only
          rw [if_neg hcond]
          constructor
          · intro hne
            refine Or.inr ⟨sec, rfl, hf, ?_⟩
            by_contra hno
            push_neg at hno
            exact hne (by rw [if_neg (not_lt.mpr hno.1), if_neg (not_lt.mpr hno.2)]; rfl)
          · rintro (hall | ⟨s, hs, _, hor⟩)
            · exact absurd (hall sec rfl) (by simp [hf])
            · injection hs with hs
              subst hs
              rcases hor with h | h
              · intro hnil
                rw [if_pos h] at hnil
                simp at hnil
              · intro hnil
                rw [if_pos h] at hnil
                simp at hnil

theorem collectFailures_eq_nil_iff (sections : List SectionMatch)
    (keys : List String) (thr : ℚ) :
    collectFailures sections keys thr = [] ↔
      ∀ k ∈ keys, keyFailures sections thr k = [] := by
  unfold collectFailures
  rw [List.flatten_eq_nil_iff]
  simp

/-- C4: `validateSections` raises an error iff `hardFail` is set and at least
one required key fails a check (resolved section missing or not found,
confidence below the threshold, or length below the fixed minimum of 500);
the raised value collects all failing checks of all required keys; with
`hardFail` unset it never raises; and for a found section the length check
and the confidence check fire independently of each other. -/
theorem spec_c4 (sections : List SectionMatch) (keys : List String) (thr : ℚ)
    (hardFail : Bool) :
    ((∃ e, validateSections sections keys thr hardFail = Except.error e) ↔
      (hardFail = true ∧ ∃ k ∈ keys, keyFailures sections thr k ≠ [])) ∧
    (∀ e, validateSections sections keys thr hardFail = Except.error e →
      e = collectFailures sections keys thr) ∧
    (hardFail = false →
      validateSections sections keys thr hardFail = Except.ok ()) ∧
    (∀ k, keyFailures sections thr k ≠ [] ↔
      ((∀ s, resolveSection sections k = some s → s.found = false) ∨
       (∃ s, resolveSection sections k = some s ∧ s.found = true ∧
         (s.confidence < thr ∨ s.lengthChars < MIN_SECTION_LENGTH)))) ∧
    (∀ k s, resolveSection sections k = some s → s.found = true →
      ((s.lengthChars < MIN_SECTION_LENGTH →
        ValidationFailure.tooShort k s.lengthChars ∈ keyFailures sections thr k) ∧
       (s.confidence < thr →
        ValidationFailure.confidenceBelow k s.confidence thr ∈
          keyFailures sections thr k))) := by
  refine ⟨?_, ?_, ?_, fun k => keyFailures_ne_nil_iff sections thr k, ?_⟩
  · unfold validateSections
    by_cases hne : (collectFailures sections keys thr).length > 0
    · rw [if_pos hne]
      cases hardFail with
      | false => simp
      | true =>
          simp only [if_true, true_and]
          constructor
          · intro _
            have hcf : collectFailures sections keys thr ≠ [] := by
              intro hnil
              rw [hnil] at hne
              exact absurd hne (by simp)
            by_contra hno
            push_neg at hno
            exact hcf ((collectFailures_eq_nil_iff sections keys thr).2
              (fun k hk => by
                by_contra hkk
                exact hkk (hno k hk) |>.elim))
          · intro _; exact ⟨collectFailures sections keys thr, rfl⟩
    · rw [if_neg hne]
      constructor
      · rintro ⟨e, he⟩; exact absurd he (by simp)
      · rintro ⟨_, k, hk, hkf⟩
        exfalso
        apply hkf
        have hnil : collectFailures sections keys thr = [] := by
          cases hcf : collectFailures sections keys thr with
          | nil => rfl
          | cons a l => rw [hcf] at hne; exact absurd (by simp) hne
        exact (collectFailures_eq_nil_iff sections keys thr).1 hnil k hk
  · intro e he
    unfold validateSections at he
    by_cases hne : (collectFailures sections keys thr).length > 0
    · rw [if_pos hne] at he
      cases hardFail with
      | false => exact absurd he (by simp)
      | true =>
          rw [if_pos rfl] at he
          exact (Except.error.injEq _ _ ▸ congrArg id he) ▸ rfl
    · rw [if_neg hne] at he
      exact absurd he (by simp)
  · intro hhf
    unfold validateSections
    subst hhf
    by_cases hne : (collectFailures sections keys thr).length > 0
    · rw [if_pos hne]; rfl
    · rw [if_neg hne]
  · intro k s hr hf
    unfold keyFailures
    rw [hr]
    simp only [hf, Bool.not_true, Bool.false_eq_true, if_false]
    constructor
    · intro hl
      by_cases hc : s.confidence < thr <;> simp [hc, hl]
    · intro hc
      by_cases hl : s.lengthChars < MIN_SECTION_LENGTH <;> simp [hc, hl]

/-- C4 witness: with `hardFail` unset the validator returns normally even on a
failing section, and a found-but-short section triggers the length check. -/
theorem spec_c4_witness :
    validateSections c4Sections ["risk-factors"] q3_4 false = Except.ok () ∧
    ValidationFailure.tooShort "risk-factors" 100 ∈
      keyFailures c4Sections q3_4 "risk-factors" := by
  have h := spec_c4 c4Sections ["risk-factors"] q3_4 false
  refine ⟨h.2.2.1 rfl, ?_⟩
  have hmem := (h.2.2.2.2 "risk-factors" c4Sec (by decide) (by decide)).1 (by decide)
  exact hmem

/-! ## Claim C8 -/

theorem cap_length_le (c : List Char) :
    (if c.length > CONTENT_CHAR_CAP then c.take CONTENT_CHAR_CAP else c).length ≤
      CONTENT_CHAR_CAP := by
  by_cases h : c.length > CONTENT_CHAR_CAP
  · rw [if_pos h, List.length_take]
    exact Nat.min_le_left _ _
  · rw [if_neg h]; omega

theorem findEndIdxAux_some :
    ∀ (ls : List (List Char)) (i k : Nat), findEndIdxAux ls i = some k →
      i ≤ k ∧ (∃ l, ls[k - i]? = some l ∧ headingLineB l = true) ∧
      (∀ d, d < k - i → ∀ l, ls[d]? = some l → headingLineB l = false)
  | [], i, k, h => by simp [findEndIdxAux] at h
  | l :: ls, i, k, h => by
      unfold findEndIdxAux at h
      by_cases hb : headingLineB l
      · rw [if_pos hb] at h
        injection h with h
        subst h
        refine ⟨le_refl _, ⟨l, by simp, hb⟩, ?_⟩
        intro d hd
        omega
      · rw [if_neg hb] at h
        obtain ⟨hik, ⟨lx, hlx, hhlx⟩, hmin⟩ := findEndIdxAux_some ls (i + 1) k h
        refine ⟨by omega, ⟨lx, ?_, hhlx⟩, ?_⟩
        · have hki : k - i = (k - (i + 1)) + 1 := by omega
          rw [hki, List.getElem?_cons_succ]
          exact hlx
        · intro d hd ly hly
          cases d with
          | zero =>
              simp only [List.getElem?_cons_zero, Option.some.injEq] at hly
              rw [← hly]
              exact Bool.eq_false_iff.2 hb
          | succ d =>
              rw [List.getElem?_cons_succ] at hly
              exact hmin d (by omega) ly hly

theorem findEndIdxAux_none :
    ∀ (ls : List (List Char)) (i : Nat), findEndIdxAux ls i = none →
      ∀ l ∈ ls, headingLineB l = false
  | [], _, _ => by simp
  | l :: ls, i, h => by
      unfold findEndIdxAux at h
      by_cases hb : headingLineB l
      · rw [if_pos hb] at h; exact absurd h (by simp)
      · rw [if_neg hb] at h
        intro l' hl'
        rcases List.mem_cons.1 hl' with rfl | hl'
        · exact Bool.eq_false_iff.2 hb
        · exact findEndIdxAux_none ls (i + 1) h l' hl'

/-- C8: for every flat-text extraction, the section content is at most
100,000 characters; the section's end is the first heading-like line, with
the first 3 lines of the section text excluded from that scan, and the
content is the capped, trimmed join of the lines before it; when no such
line exists the content is the capped, trimmed join of the first 800 lines. -/
theorem spec_c8 (text : List Char) (startOffset : Nat) :
    (extractTextSection text startOffset).length ≤ CONTENT_CHAR_CAP ∧
    (∀ k, findEndIdx (splitLines (text.drop startOffset)) = some k →
      3 ≤ k ∧
      (∃ l, (splitLines (text.drop startOffset))[k]? = some l ∧
        headingLineB l = true) ∧
      (∀ j, 3 ≤ j → j < k →
        ∀ l, (splitLines (text.drop startOffset))[j]? = some l →
          headingLineB l = false) ∧
      extractTextSection text startOffset =
        (let c := trimChars (joinLines
          ((splitLines (text.drop startOffset)).take k))
         if c.length > CONTENT_CHAR_CAP then c.take CONTENT_CHAR_CAP else c)) ∧
    (findEndIdx (splitLines (text.drop startOffset)) = none →
      (∀ j, 3 ≤ j →
        ∀ l, (splitLines (text.drop startOffset))[j]? = some l →
          headingLineB l = false) ∧
      extractTextSection text startOffset =
        (let c := trimChars (joinLines
          ((splitLines (text.drop startOffset)).take FALLBACK_LINE_CAP))
         if c.length > CONTENT_CHAR_CAP then c.take CONTENT_CHAR_CAP else c)) := by
  refine ⟨?_, ?_, ?_⟩
  · cases hE : findEndIdx (splitLines (text.drop startOffset)) with
    | none =>
        simp only [extractTextSection, hE]
        exact cap_length_le _
    | some e =>
        simp only [extractTextSection, hE]
        exact cap_length_le _
  · intro k hk
    have haux := findEndIdxAux_some ((splitLines (text.drop startOffset)).drop 3) 3 k hk
    obtain ⟨h3k, ⟨l, hl, hhl⟩, hmin⟩ := haux
    refine ⟨h3k, ⟨l, ?_, hhl⟩, ?_, ?_⟩
    · rw [List.getElem?_drop] at hl
      rw [show k = 3 + (k - 3) by omega]
      exact hl
    · intro j h3j hjk l' hl'
      have : (splitLines (text.drop startOffset))[3 + (j - 3)]? = some l' := by
        rw [show 3 + (j - 3) = j by omega]
        exact hl'
      rw [← List.getElem?_drop] at this
      exact hmin (j - 3) (by omega) l' this
    · simp only [extractTextSection, hk]
  · intro hE
    refine ⟨?_, ?_⟩
    · intro j h3j l hl
      have : (splitLines (text.drop startOffset))[3 + (j - 3)]? = some l := by
        rw [show 3 + (j - 3) = j by omega]
        exact hl
      rw [← List.getElem?_drop] at this
      exact findEndIdxAux_none _ 3 hE l (List.getElem?_mem this)
    · simp only [extractTextSection, hE]

/-- C8 witness: at a concrete document whose section ends at line 4, the
content equals the capped trimmed join of the first 4 lines and respects the
100,000-character bound. -/
theorem spec_c8_witness :
    (extractTextSection c8Text 0).length ≤ CONTENT_CHAR_CAP ∧
    extractTextSection c8Text 0 =
      (let c := trimChars (joinLines ((splitLines (c8Text.drop 0)).take 4))
       if c.length > CONTENT_CHAR_CAP then c.take CONTENT_CHAR_CAP else c) :=
  ⟨(spec_c8 c8Text 0).1, ((spec_c8 c8Text 0).2.1 4 (by decide)).2.2.2⟩

/-! ## Orchestrator lemmas -/

theorem haltTriggerB_eq_true_iff (mode : InvocationMode) (skips : List StepName)
    (oracle : StepName → StepOutcome) (s : WorkflowStepSig) :
    haltTriggerB mode skips oracle s = true ↔
      (s.name ∉ skips ∧ s.required = true ∧ mode = InvocationMode.command ∧
        ∃ m, oracle s.name = StepOutcome.err m) := by
  unfold haltTriggerB stepFails
  cases ho : oracle s.name with
  | ok => simp [ho]
  | err m => simp [ho, and_assoc]

theorem runSteps_halted_eq_any (mode : InvocationMode) (skips : List StepName)
    (oracle : StepName → StepOutcome) (dur : StepName → Nat) :
    ∀ steps : List WorkflowStepSig,
      (runSteps mode skips oracle dur steps).2.1 =
        steps.any (haltTriggerB mode skips oracle)
  | [] => by simp [runSteps]
  | step :: rest => by
      simp only [runSteps, List.any_cons]
      by_cases hs : step.name ∈ skips
      · rw [if_pos hs]
        have ht : haltTriggerB mode skips oracle step = false := by
          simp [haltTriggerB, hs]
        rw [ht, Bool.false_or]
        exact runSteps_halted_eq_any mode skips oracle dur rest
      · rw [if_neg hs]
        cases ho : oracle step.name with
        | ok =>
            dsimp only
            have ht : haltTriggerB mode skips oracle step = false := by
              simp [haltTriggerB, stepFails, ho]
            rw [ht, Bool.false_or]
            exact runSteps_halted_eq_any mode skips oracle dur rest
        | err m =>
            dsimp only
            by_cases hrc : (step.required && (mode == InvocationMode.command)) = true
            · rw [if_pos hrc]
              have ht : haltTriggerB mode skips oracle step = true := by
                simp [haltTriggerB, stepFails, hs, hrc, ho]
              rw [ht, Bool.true_or]
            · rw [if_neg hrc]
              have ht : haltTriggerB mode skips oracle step = false := by
                apply Bool.eq_false_iff.2
                intro hcon
                obtain ⟨_, hreq, hmode, _⟩ :=
                  (haltTriggerB_eq_true_iff mode skips oracle step).1 hcon
                exact hrc (by simp [hreq, hmode])
              rw [ht, Bool.false_or]
              exact runSteps_halted_eq_any mode skips oracle dur rest

theorem runSteps_reason_of_halted (mode : InvocationMode) (skips : List StepName)
    (oracle : StepName → StepOutcome) (dur : StepName → Nat) :
    ∀ steps : List WorkflowStepSig,
      (runSteps mode skips oracle dur steps).2.1 = true →
      ∃ m, (runSteps mode skips oracle dur steps).2.2 = some m
  | [] => by simp [runSteps]
  | step :: rest => by
      simp only [runSteps]
      by_cases hs : step.name ∈ skips
      · rw [if_pos hs]
        exact runSteps_reason_of_halted mode skips oracle dur rest
      · rw [if_neg hs]
        cases ho : oracle step.name with
        | ok =>
            dsimp only
            exact runSteps_reason_of_halted mode skips oracle dur rest
        | err m =>
            dsimp only
            by_cases hrc : (step.required && (mode == InvocationMode.command)) = true
            · rw [if_pos hrc]
              exact fun _ => ⟨m, rfl⟩
            · rw [if_neg hrc]
              exact runSteps_reason_of_halted mode skips oracle dur rest

theorem runSteps_not_halted_results (mode : InvocationMode) (skips : List StepName)
    (oracle : StepName → StepOutcome) (dur : StepName → Nat) :
    ∀ steps : List WorkflowStepSig,
      (runSteps mode skips oracle dur steps).2.1 = false →
      ((runSteps mode skips oracle dur steps).1.map (fun r => r.name) =
        steps.map (fun s => s.name)) ∧
      (∀ r ∈ (runSteps mode skips oracle dur steps).1,
        (r.status = StepStatus.skipped ↔ r.name ∈ skips))
  | [] => by simp [runSteps]
  | step :: rest => by
      simp only [runSteps]
      by_cases hs : step.name ∈ skips
      · rw [if_pos hs]
        intro h
        obtain ⟨hm, hp⟩ := runSteps_not_halted_results mode skips oracle dur rest h
        refine ⟨by simpa using hm, ?_⟩
        intro r hr
        rcases List.mem_cons.1 hr with rfl | hr
        · simpa using hs
        · exact hp r hr
      · rw [if_neg hs]
        cases ho : oracle step.name with
        | ok =>
            dsimp only
            intro h
            obtain ⟨hm, hp⟩ := runSteps_not_halted_results mode skips oracle dur rest h
            refine ⟨by simpa using hm, ?_⟩
            intro r hr
            rcases List.mem_cons.1 hr with rfl | hr
            · simpa using hs
            · exact hp r hr
        | err m =>
            dsimp only
            by_cases hrc : (step.required && (mode == InvocationMode.command)) = true
            · rw [if_pos hrc]
              intro h
              exact absurd h (by simp)
            · rw [if_neg hrc]
              intro h
              obtain ⟨hm, hp⟩ := runSteps_not_halted_results mode skips oracle dur rest h
              refine ⟨by simpa using hm, ?_⟩
              intro r hr
              rcases List.mem_cons.1 hr with rfl | hr
              · simpa using hs
              · exact hp r hr

/-! ## Claim C2 -/

/-- C2 (modelled from the spec; `orchestrator.ts` is not under `src/`):
ledger emission happens exactly once per run; the step sequence is
short-circuited iff some step not in the skip set fails while marked required
in strict (`command`) mode — so a failure of a non-required step, or any
failure in lenient mode, never prevents the remaining steps from producing
results; and on an enforced halt the emitted ledger has `passed = false` and
carries a failure reason. -/
theorem spec_c2 (options : AnalyzeOptions) (plan : WorkflowPlan)
    (oracle : StepName → StepOutcome) (dur : StepName → Nat)
    (finalSections : List SectionMatch) (ct : ContentType) (now : String) :
    (runWorkflow options plan oracle dur finalSections ct now).emittedLedgers.length = 1 ∧
    ((runWorkflow options plan oracle dur finalSections ct now).halted = true ↔
      ∃ step ∈ plan.steps, step.name ∉ plan.skippedSteps ∧ step.required = true ∧
        options.mode = InvocationMode.command ∧
        ∃ m, oracle step.name = StepOutcome.err m) ∧
    ((runWorkflow options plan oracle dur finalSections ct now).halted = false →
      (runWorkflow options plan oracle dur finalSections ct now).stepResults.map
          (fun r => r.name) =
        plan.steps.map (fun s => s.name)) ∧
    (∀ led ∈ (runWorkflow options plan oracle dur finalSections ct now).emittedLedgers,
      led.passed = !(runWorkflow options plan oracle dur finalSections ct now).halted ∧
      ((runWorkflow options plan oracle dur finalSections ct now).halted = true →
        led.passed = false ∧ ∃ m, led.failureReason = some m)) := by
  refine ⟨rfl, ?_, ?_, ?_⟩
  · have h1 : (runWorkflow options plan oracle dur finalSections ct now).halted =
        (runSteps options.mode plan.skippedSteps oracle dur plan.steps).2.1 := rfl
    rw [h1, runSteps_halted_eq_any, List.any_eq_true]
    simp only [haltTriggerB_eq_true_iff]
  · intro h
    exact (runSteps_not_halted_results options.mode plan.skippedSteps oracle dur
      plan.steps h).1
  · intro led hled
    have hled' : led = buildLedger
        { options := options, rawContent := [], contentType := ct,
          extractedText := [], sections := finalSections, analyses := [],
          stepResults := (runSteps options.mode plan.skippedSteps oracle dur plan.steps).1,
          overallSummary := [] }
        plan (!(runSteps options.mode plan.skippedSteps oracle dur plan.steps).2.1)
        ((runSteps options.mode plan.skippedSteps oracle dur plan.steps).2.2) now :=
      List.mem_singleton.1 hled
    subst hled'
    refine ⟨rfl, fun hh => ?_⟩
    have hh' : (runSteps options.mode plan.skippedSteps oracle dur plan.steps).2.1 = true := hh
    refine ⟨?_, ?_⟩
    · show (!(runSteps options.mode plan.skippedSteps oracle dur plan.steps).2.1) = false
      rw [hh']
      rfl
    · exact runSteps_reason_of_halted options.mode plan.skippedSteps oracle dur
        plan.steps hh'

/-- C2 witness: a concrete strict-mode run in which `extract` (a required
step) fails emits exactly one ledger and halts. -/
theorem spec_c2_witness :
    c2WitRun.emittedLedgers.length = 1 ∧ c2WitRun.halted = true := by
  have h := spec_c2 optsCmd (buildWorkflow optsCmd) oracleFailExtract
    (fun _ => 1) [] ContentType.html "2024-01-01T00:00:00.000Z"
  refine ⟨h.1, h.2.1.mpr ?_⟩
  refine ⟨{ name := .extract, required := true }, by decide, by decide, rfl, rfl,
    "Extracted text too short (120 chars). Filing may be malformed.", rfl⟩

/-! ## Claim C1 -/

theorem ledgerScan_spec :
    ∀ (results : List StepResult) (durs : List (StepName × Nat))
      (exec skipped : List StepName),
      (∀ r ∈ results, r.status = StepStatus.skipped → r.name ∈ skipped) →
      (ledgerScan results durs exec skipped).2.1 =
        exec ++ (results.filter
          (fun r => !(r.status == StepStatus.skipped))).map (fun r => r.name) ∧
      (ledgerScan results durs exec skipped).2.2 = skipped
  | [], _, _, _, _ => by simp [ledgerScan]
  | r :: rest, durs, exec, skipped, h => by
      have hrest := fun r' hr' => h r' (List.mem_cons_of_mem _ hr')
      cases hst : r.status with
      | passed =>
          simp only [ledgerScan, hst]
          obtain ⟨h1, h2⟩ := ledgerScan_spec rest
            (recordSet durs r.name r.durationMs) (exec ++ [r.name]) skipped hrest
          refine ⟨?_, h2⟩
          rw [h1]
          simp [List.filter_cons, hst]
      | failed =>
          simp only [ledgerScan, hst]
          obtain ⟨h1, h2⟩ := ledgerScan_spec rest
            (recordSet durs r.name r.durationMs) (exec ++ [r.name]) skipped hrest
          refine ⟨?_, h2⟩
          rw [h1]
          simp [List.filter_cons, hst]
      | skipped =>
          have hmem : r.name ∈ skipped := h r (List.mem_cons_self _ _) hst
          simp only [ledgerScan, hst]
          rw [if_pos hmem]
          obtain ⟨h1, h2⟩ := ledgerScan_spec rest
            (recordSet durs r.name r.durationMs) exec skipped hrest
          refine ⟨?_, h2⟩
          rw [h1]
          simp [List.filter_cons, hst]

theorem filter_map_name_comm (skips : List StepName) :
    ∀ results : List StepResult,
      (∀ r ∈ results, (r.status = StepStatus.skipped ↔ r.name ∈ skips)) →
      (results.filter (fun r => !(r.status == StepStatus.skipped))).map
          (fun r => r.name) =
        (results.map (fun r => r.name)).filter (fun n => !(decide (n ∈ skips)))
  | [], _ => rfl
  | r :: rest, h => by
      have hrest := fun r' hr' => h r' (List.mem_cons_of_mem _ hr')
      have hr := h r (List.mem_cons_self _ _)
      by_cases hst : r.status = StepStatus.skipped
      · have hmem : r.name ∈ skips := hr.1 hst
        simp [List.filter_cons, List.map_cons, hst, hmem,
          filter_map_name_comm skips rest hrest]
      · have hmem : r.name ∉ skips := fun hm => hst (hr.2 hm)
        have hb : (r.status == StepStatus.skipped) = false := by
          simpa using hst
        simp [List.filter_cons, List.map_cons, hb, hmem,
          filter_map_name_comm skips rest hrest]

theorem buildWorkflow_step_names (options : AnalyzeOptions) :
    (buildWorkflow options).steps.map (fun s => s.name) = ALL_REQUIRED_STEPS := rfl

theorem all_required_steps_nodup : ALL_REQUIRED_STEPS.Nodup := by decide

/-- The exactly-once coverage of the C1 invariant holds for any ledger built
from step results that cover the whole six-step universe in order, with a
step recorded skipped iff its name is in the (duplicate-free) plan skip
set. -/
theorem buildLedger_cover (results : List StepResult) (skips : List StepName)
    (ctx : WorkflowContext) (plan : WorkflowPlan) (passed : Bool)
    (fr : Option String) (now : String)
    (hctx : ctx.stepResults = results) (hplan : plan.skippedSteps = skips)
    (hnames : results.map (fun r => r.name) = ALL_REQUIRED_STEPS)
    (hpt : ∀ r ∈ results, (r.status = StepStatus.skipped ↔ r.name ∈ skips))
    (hnd : skips.Nodup) :
    coversExactlyOnce (buildLedger ctx plan passed fr now) := by
  have hscan := ledgerScan_spec results [] [] skips
    (fun r hr hst => (hpt r hr).1 hst)
  have hex : (buildLedger ctx plan passed fr now).executedSteps =
      ALL_REQUIRED_STEPS.filter (fun n => !(decide (n ∈ skips))) := by
    show (ledgerScan ctx.stepResults [] [] plan.skippedSteps).2.1 =
      ALL_REQUIRED_STEPS.filter (fun n => !(decide (n ∈ skips)))
    rw [hctx, hplan, hscan.1, List.nil_append,
      filter_map_name_comm skips results hpt, hnames]
  have hsk : (buildLedger ctx plan passed fr now).skippedSteps = skips := by
    show (ledgerScan ctx.stepResults [] [] plan.skippedSteps).2.2 = skips
    rw [hctx, hplan, hscan.2]
  intro name hname
  by_cases hn : name ∈ skips
  · right
    refine ⟨?_, ?_, ?_⟩
    · rw [hsk]; exact hn
    · rw [hex]
      intro hmem
      have := List.of_mem_filter hmem
      simp at this
      exact this hn
    · rw [hsk]; exact List.count_eq_one_of_mem hnd hn
  · left
    have hmf : name ∈ ALL_REQUIRED_STEPS.filter (fun n => !(decide (n ∈ skips))) :=
      List.mem_filter.2 ⟨hname, by simp [hn]⟩
    refine ⟨?_, ?_, ?_⟩
    · rw [hex]; exact hmf
    · rw [hsk]; exact hn
    · rw [hex]
      exact List.count_eq_one_of_mem (all_required_steps_nodup.filter _) hmf

/-- C1 counterexample: in the concrete strict-mode run `c1CexRun`, halted by
the enforcement rule at the failing `extract` step, the emitted ledger's
`executedSteps ∪ skippedSteps` misses the steps after the halt
(`locate_sections`, `validate`, `generate`, `emit_ledger`), so the claimed
exactly-once coverage of the six-step universe fails for that run. -/
theorem spec_c1_counterexample :
    ¬ ∀ led ∈ c1CexRun.emittedLedgers, coversExactlyOnce led := by
  decide

/-- C1 (amended, modelled from the spec for the orchestrator part): for every
run whose plan skip set is duplicate-free (as the router guarantees) and that
is not halted by the strict-mode enforcement rule, the emitted ledger's
`executedSteps` and `skippedSteps` cover each name of the six-step universe
exactly once; on an enforced halt the steps after the failing one appear in
neither list. -/
theorem spec_c1_amended (options : AnalyzeOptions) (skips : List StepName)
    (oracle : StepName → StepOutcome) (dur : StepName → Nat)
    (finalSections : List SectionMatch) (ct : ContentType) (now : String)
    (hnd : skips.Nodup)
    (hhalt : (runWorkflow options
      { buildWorkflow options with skippedSteps := skips }
      oracle dur finalSections ct now).halted = false) :
    ∀ led ∈ (runWorkflow options
      { buildWorkflow options with skippedSteps := skips }
      oracle dur finalSections ct now).emittedLedgers,
      coversExactlyOnce led := by
  intro led hled
  have hled' : led = buildLedger
      { options := options, rawContent := [], contentType := ct,
        extractedText := [], sections := finalSections, analyses := [],
        stepResults := (runSteps options.mode skips oracle dur
          (buildWorkflow options).steps).1,
        overallSummary := [] }
      { buildWorkflow options with skippedSteps := skips }
      (!(runSteps options.mode skips oracle dur (buildWorkflow options).steps).2.1)
      ((runSteps options.mode skips oracle dur (buildWorkflow options).steps).2.2)
      now :=
    List.mem_singleton.1 hled
  subst hled'
  have hhalt' : (runSteps options.mode skips oracle dur
      (buildWorkflow options).steps).2.1 = false := hhalt
  obtain ⟨hnames, hpt⟩ := runSteps_not_halted_results options.mode skips oracle dur
    (buildWorkflow options).steps hhalt'
  exact buildLedger_cover
    ((runSteps options.mode skips oracle dur (buildWorkflow options).steps).1)
    skips _ _ _ _ _ rfl rfl
    (hnames.trans (buildWorkflow_step_names options)) hpt hnd

/-- C1 amended witness: a concrete completed lenient-mode run with the
router-supplied skip set containing `validate` covers the universe exactly
once. -/
theorem spec_c1_amended_witness : coversExactlyOnce c1WitLedger := by
  have h := spec_c1_amended optsIntent [.validate] oracleAllOk (fun _ => 1) []
    ContentType.html "2024-01-01T00:00:00.000Z" (by decide) (by decide)
  exact h c1WitLedger (by decide)

end SecAudit
